import Mathlib

/-!
Verification of the Item Catalog Engine (Go service `app/main.go`).

The development shallowly embeds the engine's operations:
* the content-addressed image store (`getHashedImage` / `put`, `getImg`),
  including an executable SHA-256 (mirroring Go's `crypto/sha256`) and
  Go's `path.Clean`/`path.Join`;
* the relational state (`categories`, `items` tables) and the handlers
  `getItems`, `getItemById`, `searchItems` (SQLite `LIKE` semantics), and
  the transactional `addItem` workflow with an explicit fault model for
  each fallible database step.
Machine integers are modelled as `Nat` reduced mod 2^32 / 2^64 where Go
overflows; byte strings are `List Nat`; the file system and the database
are explicit state threaded through each operation.
-/

/-! Part 1: SHA-256 (Go `crypto/sha256`), over byte lists, words as `Nat` mod 2^32. -/

def wordMask : Nat := 4294967296

def add32 (a b : Nat) : Nat := (a + b) % wordMask

def rotr32 (n x : Nat) : Nat := ((x >>> n) ||| (x <<< (32 - n))) % wordMask

def sha2Ch (x y z : Nat) : Nat := (x &&& y) ^^^ ((x ^^^ 4294967295) &&& z)

def sha2Maj (x y z : Nat) : Nat := (x &&& y) ^^^ (x &&& z) ^^^ (y &&& z)

def bigSigma0 (x : Nat) : Nat := rotr32 2 x ^^^ rotr32 13 x ^^^ rotr32 22 x

def bigSigma1 (x : Nat) : Nat := rotr32 6 x ^^^ rotr32 11 x ^^^ rotr32 25 x

def smallSigma0 (x : Nat) : Nat := rotr32 7 x ^^^ rotr32 18 x ^^^ (x >>> 3)

def smallSigma1 (x : Nat) : Nat := rotr32 17 x ^^^ rotr32 19 x ^^^ (x >>> 10)

def sha256K : List Nat :=
  [1116352408, 1899447441, 3049323471, 3921009573, 961987163,
   1508970993, 2453635748, 2870763221, 3624381080, 310598401,
   607225278, 1426881987, 1925078388, 2162078206, 2614888103,
   3248222580, 3835390401, 4022224774, 264347078, 604807628,
   770255983, 1249150122, 1555081692, 1996064986, 2554220882,
   2821834349, 2952996808, 3210313671, 3336571891, 3584528711,
   113926993, 338241895, 666307205, 773529912, 1294757372,
   1396182291, 1695183700, 1986661051, 2177026350, 2456956037,
   2730485921, 2820302411, 3259730800, 3345764771, 3516065817,
   3600352804, 4094571909, 275423344, 430227734, 506948616,
   659060556, 883997877, 958139571, 1322822218, 1537002063,
   1747873779, 1955562222, 2024104815, 2227730452, 2361852424,
   2428436474, 2756734187, 3204031479, 3329325298]

structure Sha2State where
  a : Nat
  b : Nat
  c : Nat
  d : Nat
  e : Nat
  f : Nat
  g : Nat
  h : Nat
deriving DecidableEq

def sha256Init : Sha2State :=
  ⟨1779033703, 3144134277, 1013904242, 2773480762, 1359893119, 2600822924, 528734635, 1541459225⟩

def extendW (ws : Array Nat) : Array Nat :=
  (List.range 48).foldl (fun w i =>
    w.push (add32 (add32 (smallSigma1 (w.getD (i + 14) 0)) (w.getD (i + 9) 0))
                  (add32 (smallSigma0 (w.getD (i + 1) 0)) (w.getD i 0)))) ws

def compressRound (k wi : Nat) (s : Sha2State) : Sha2State :=
  let t1 := add32 s.h (add32 (bigSigma1 s.e) (add32 (sha2Ch s.e s.f s.g) (add32 k wi)))
  let t2 := add32 (bigSigma0 s.a) (sha2Maj s.a s.b s.c)
  ⟨add32 t1 t2, s.a, s.b, s.c, add32 s.d t1, s.e, s.f, s.g⟩

def compressBlock (st : Sha2State) (block : Array Nat) : Sha2State :=
  let w := extendW block
  let r := (List.range 64).foldl (fun s i => compressRound (sha256K.getD i 0) (w.getD i 0) s) st
  ⟨add32 st.a r.a, add32 st.b r.b, add32 st.c r.c, add32 st.d r.d,
   add32 st.e r.e, add32 st.f r.f, add32 st.g r.g, add32 st.h r.h⟩

def toBytesBE (n value : Nat) : List Nat :=
  (List.range n).map (fun i => (value >>> (8 * (n - 1 - i))) % 256)

def sha256pad (msg : List Nat) : List Nat :=
  let L := msg.length
  let k := (119 - L % 64) % 64
  msg ++ [128] ++ List.replicate k 0 ++ toBytesBE 8 ((8 * L) % (2 ^ 64))

def toWordsBE : List Nat → List Nat
  | b0 :: b1 :: b2 :: b3 :: rest =>
    (b0 * 16777216 + b1 * 65536 + b2 * 256 + b3) :: toWordsBE rest
  | _ => []

def chunk16 : List Nat → List (Array Nat)
  | w0 :: w1 :: w2 :: w3 :: w4 :: w5 :: w6 :: w7 ::
    w8 :: w9 :: w10 :: w11 :: w12 :: w13 :: w14 :: w15 :: rest =>
    #[w0, w1, w2, w3, w4, w5, w6, w7, w8, w9, w10, w11, w12, w13, w14, w15] :: chunk16 rest
  | _ => []

def sha256Sum (msg : List Nat) : List Nat :=
  let final := (chunk16 (toWordsBE (sha256pad msg))).foldl compressBlock sha256Init
  toBytesBE 4 final.a ++ toBytesBE 4 final.b ++ toBytesBE 4 final.c ++ toBytesBE 4 final.d ++
  toBytesBE 4 final.e ++ toBytesBE 4 final.f ++ toBytesBE 4 final.g ++ toBytesBE 4 final.h

def hexDigit (n : Nat) : Char :=
  if n < 10 then Char.ofNat (48 + n) else Char.ofNat (87 + n)

def byteToHex (b : Nat) : List Char := [hexDigit (b / 16), hexDigit (b % 16)]

/-- Go's `fmt.Sprintf("%x", hash.Sum(nil))`: lowercase hex of the SHA-256 digest. -/
def sha256hex (msg : List Nat) : String := String.mk ((sha256Sum msg).map byteToHex).flatten

/-! Sanity checks of the SHA-256 embedding against the FIPS 180-4 test vectors. -/

set_option maxRecDepth 100000

theorem sha256hexEmptyVector :
    sha256hex [] = "e3b0c44298fc1c149afbf4c8996fb92427ae41e4649b934ca495991b7852b855" := by decide

theorem sha256hexAbcVector :
    sha256hex [97, 98, 99] = "ba7816bf8f01cfea414140de5dae2223b00361a396177a9cb410ff61f20015ad" := by
  decide

/-! Part 2: the file system and the image store. -/

/-- The image directory, constant `ImgDir` in the source. -/
def ImgDir : String := "images"

/-- A flat file system: association of paths to byte contents. -/
def Fs : Type := List (String × List Nat)

instance : DecidableEq Fs := by
  unfold Fs
  exact inferInstance

/-- Write via `os.Create` followed by a full `io.Copy`: overwrite the file at `p` with bytes `b`. -/
def fsWrite (fs : Fs) (p : String) (b : List Nat) : Fs :=
  (p, b) :: List.filter (fun e => e.1 != p) fs

/-- Read the file at `p`, if present. -/
def fsRead (fs : Fs) (p : String) : Option (List Nat) := List.lookup p fs

/-! Part 3: Go `path.Clean` and `path.Join` (slash-separated paths). -/

def splitSlash : List Char → List (List Char)
  | [] => [[]]
  | c :: rest =>
    let r := splitSlash rest
    if c = '/' then [] :: r
    else
      match r with
      | [] => [[c]]
      | h :: t => (c :: h) :: t

def pathCleanStep (rooted : Bool) (stack : List (List Char)) (part : List Char) :
    List (List Char) :=
  if part = [] ∨ part = ['.'] then stack
  else if part = ['.', '.'] then
    match stack with
    | top :: rest => if top = ['.', '.'] then part :: stack else rest
    | [] => if rooted then [] else [part]
  else part :: stack

def joinSlash : List (List Char) → List Char
  | [] => []
  | [x] => x
  | x :: xs => x ++ '/' :: joinSlash xs

/-- Go `path.Clean`. -/
def pathClean (p : String) : String :=
  if p = "" then "."
  else
    let cs := p.data
    let rooted : Bool := match cs with | '/' :: _ => true | _ => false
    let stack := List.foldl (pathCleanStep rooted) [] (splitSlash cs)
    let body := joinSlash stack.reverse
    if body = [] then (if rooted then "/" else ".")
    else String.mk (if rooted then '/' :: body else body)

/-- Go `path.Join` restricted to two elements, as used by the handlers. -/
def pathJoin (a b : String) : String :=
  if a = "" then (if b = "" then "" else pathClean b)
  else pathClean (a ++ "/" ++ b)

/-- Go `strings.HasSuffix`. -/
def hasSuffix (s suffix : String) : Bool := List.isSuffixOf suffix.data s.data

/-- The content-addressed write of `getHashedImage`: hash the uploaded bytes,
name the file `<hex digest>.jpg`, and write it under the image directory.
Returns the filename together with the updated file system. -/
def put (b : List Nat) (fs : Fs) : String × Fs :=
  let hashedImage := sha256hex b ++ ".jpg"
  (hashedImage, fsWrite fs (pathJoin ImgDir hashedImage) b)

/-- Result of the image-serving handler `getImg`: either the `.jpg`-suffix
rejection (an HTTP 400, the spec's `InvalidName`) or serving the file at a path. -/
inductive GetImgResult where
  | invalidName
  | serveFile (p : String)
deriving DecidableEq

/-- The `getImg` handler: join the requested filename onto the image directory,
reject when the joined path does not end in `.jpg`, fall back to the default
image when the file is absent. -/
def getImg (imageFilename : String) (fs : Fs) : GetImgResult :=
  let imgPath := pathJoin ImgDir imageFilename
  if !(hasSuffix imgPath ".jpg") then .invalidName
  else if (fsRead fs imgPath).isSome then .serveFile imgPath
  else .serveFile (pathJoin ImgDir "default.jpg")

/-! Part 4: relational state, the `categories` and `items` tables. -/

structure CategoryRow where
  id : Nat
  name : String
deriving DecidableEq

structure ItemRow where
  id : Nat
  name : String
  categoryId : Nat
  imageName : String
deriving DecidableEq

/-- The database: both tables in insertion (rowid) order, plus the next
auto-assigned primary key of each table. -/
structure DB where
  categories : List CategoryRow
  items : List ItemRow
  nextCategoryId : Nat
  nextItemId : Nat
deriving DecidableEq

/-- The Go `Item` response struct (`id`, `name`, `category`, `image_name`). -/
structure Item where
  id : Nat
  name : String
  category : String
  image : String
deriving DecidableEq

/-- Handler `GET /items`: `SELECT items.id, items.name, categories.name, items.image_name
FROM items JOIN categories ON items.category_id = categories.id;` — the inner
join scans `items` in stored order and pairs each row with every matching
category row. -/
def getItems (db : DB) : List Item :=
  db.items.flatMap (fun it =>
    (db.categories.filter (fun c => c.id == it.categoryId)).map (fun c =>
      ⟨it.id, it.name, c.name, it.imageName⟩))

inductive DbError where
  | notFound
deriving DecidableEq

/-- Handler `GET /items/:id`: `SELECT name, category_id, image_name FROM items WHERE id = ?`,
scanned into an `Item` whose `Id` field is never set and whose `Category`
string receives the integer `category_id`. `sql.ErrNoRows` is the not-found case. -/
def getItemById (id : Nat) (db : DB) : Except DbError Item :=
  match db.items.find? (fun r => r.id == id) with
  | none => .error .notFound
  | some r => .ok ⟨0, r.name, toString r.categoryId, r.imageName⟩

/-! Part 5: SQLite `LIKE` and the search handler. -/

/-- SQLite's default `LIKE` is case-insensitive exactly on the ASCII letters. -/
def lowerAscii (c : Char) : Char :=
  if 'A' ≤ c ∧ c ≤ 'Z' then Char.ofNat (c.toNat + 32) else c

def lowerStr (l : List Char) : List Char := l.map lowerAscii

/-- SQLite `LIKE` pattern matching: `%` matches any sequence (any suffix may
continue the match), `_` matches one character, anything else matches itself
ASCII case-insensitively. -/
def likeMatch : List Char → List Char → Bool
  | [], s => s.isEmpty
  | p :: ps, s =>
    if p = '%' then s.tails.any (fun t => likeMatch ps t)
    else
      match s with
      | [] => false
      | c :: s' => if p = '_' then likeMatch ps s'
                   else (lowerAscii p == lowerAscii c) && likeMatch ps s'

/-- Handler `GET /search`: `SELECT name, category_id FROM items WHERE name LIKE ?` with
the pattern `"%" + keyword + "%"`; each row becomes the pair
`(name, category_id as decimal string)`. -/
def searchItems (keyword : String) (db : DB) : List (String × String) :=
  (db.items.filter (fun it => likeMatch ('%' :: (keyword.data ++ ['%'])) it.name.data)).map
    (fun it => (it.name, toString it.categoryId))

/-- Boolean substring containment on character lists. -/
def containsSub (l₁ l₂ : List Char) : Bool :=
  l₂.tails.any (fun t => List.isPrefixOf l₁ t)

/-- Spec-side reference behavior of `searchByNameSubstring`: keep exactly the
items whose name contains the keyword as an ASCII-case-insensitive substring. -/
def searchByNameSubstringSpec (keyword : String) (db : DB) : List (String × String) :=
  (db.items.filter (fun it => containsSub (lowerStr keyword.data) (lowerStr it.name.data))).map
    (fun it => (it.name, toString it.categoryId))

/-! Part 6: the add-item workflow (`addItem`).

Fallible database operations are driven by a fault oracle: each flag makes the
corresponding Go call return a non-nil error.  File-system writes always
succeed (no disk faults are modelled).  `trace` records, in program order,
every operation the handler performed in the request. -/

/-- The form fields of a `POST /items` request.  A `none` field is absent from
the form; `c.FormValue` yields `""` for an absent field without any error,
while `c.FormFile` fails when the image part is absent. -/
structure AddReq where
  name : Option String
  category : Option String
  image : Option (List Nat)
deriving DecidableEq

structure Faults where
  beginTx : Bool
  queryCategory : Bool
  insertCategory : Bool
  prepareStmt : Bool
  execItem : Bool
  commitTx : Bool
deriving DecidableEq

def noFaults : Faults := ⟨false, false, false, false, false, false⟩

inductive Step where
  | formImage
  | writeImage
  | beginTx
  | queryCategory
  | insertCategory
  | prepareStmt
  | execItem
  | commitTx
  | rollbackTx
deriving DecidableEq

inductive Outcome where
  | ok
  | errImageMissing
  | errBeginTx
  | errQueryCategory
  | errInsertCategory
  | errExecItem
  | errCommit
  | panicked
deriving DecidableEq

structure AddResult where
  fs : Fs
  db : DB
  outcome : Outcome
  trace : List Step
deriving DecidableEq

/-- The category resolve-or-create block of `addItem`:
`SELECT id FROM categories WHERE name = ?`, and on `sql.ErrNoRows`
`INSERT INTO categories (name) VALUES (?)` with `LastInsertId`. -/
def resolveOrCreate (name : String) (db : DB) : Nat × DB :=
  match db.categories.find? (fun c => c.name == name) with
  | some c => (c.id, db)
  | none =>
    (db.nextCategoryId,
     { db with
        categories := db.categories ++ [⟨db.nextCategoryId, name⟩],
        nextCategoryId := db.nextCategoryId + 1 })

/-- Handler `POST /items`.  Mirrors the source line by line: read `name` and
`category` (defaulting to `""`), hash-and-store the image (failing the request
when the image part is absent, before any write), open a transaction with a
deferred rollback, resolve or create the category, prepare and execute the
item insert, and commit.  Uncommitted changes live only in the transaction's
working copy, so every non-committed exit leaves the database unchanged.

The source checks the `tx.Prepare` error but does not return on it; execution
falls through to `statement.Exec` on the nil statement, which panics (the
deferred rollback still runs). -/
def addItem (req : AddReq) (f : Faults) (fs : Fs) (db : DB) : AddResult :=
  let name := req.name.getD ""
  let category := req.category.getD ""
  match req.image with
  | none => ⟨fs, db, .errImageMissing, [.formImage]⟩
  | some bytes =>
    let hashedImage := sha256hex bytes ++ ".jpg"
    let fs1 := fsWrite fs (pathJoin ImgDir hashedImage) bytes
    let t0 : List Step := [.formImage, .writeImage]
    if f.beginTx then ⟨fs1, db, .errBeginTx, t0 ++ [.beginTx]⟩
    else if f.queryCategory then
      ⟨fs1, db, .errQueryCategory, t0 ++ [.beginTx, .queryCategory, .rollbackTx]⟩
    else
      match db.categories.find? (fun c => c.name == category) with
      | none =>
        if f.insertCategory then
          ⟨fs1, db, .errInsertCategory,
           t0 ++ [.beginTx, .queryCategory, .insertCategory, .rollbackTx]⟩
        else
          addItemInsert name (db.nextCategoryId)
            { db with
                categories := db.categories ++ [⟨db.nextCategoryId, category⟩],
                nextCategoryId := db.nextCategoryId + 1 }
            hashedImage f fs1 db
            (t0 ++ [.beginTx, .queryCategory, .insertCategory])
      | some c =>
        addItemInsert name c.id db hashedImage f fs1 db (t0 ++ [.beginTx, .queryCategory])
where
  /-- The item-insert tail of the handler: `tx.Prepare`, `statement.Exec`,
  `tx.Commit`; `tdb` is the transaction's working copy, `db` the committed
  state restored by the deferred rollback. -/
  addItemInsert (name : String) (categoryID : Nat) (tdb : DB) (hashedImage : String)
      (f : Faults) (fs1 : Fs) (db : DB) (t1 : List Step) : AddResult :=
    if f.prepareStmt then
      ⟨fs1, db, .panicked, t1 ++ [.prepareStmt, .execItem, .rollbackTx]⟩
    else if f.execItem then
      ⟨fs1, db, .errExecItem, t1 ++ [.prepareStmt, .execItem, .rollbackTx]⟩
    else
      let tdb2 :=
        { tdb with
            items := tdb.items ++ [⟨tdb.nextItemId, name, categoryID, hashedImage⟩],
            nextItemId := tdb.nextItemId + 1 }
      if f.commitTx then
        ⟨fs1, db, .errCommit, t1 ++ [.prepareStmt, .execItem, .commitTx, .rollbackTx]⟩
      else ⟨fs1, tdb2, .ok, t1 ++ [.prepareStmt, .execItem, .commitTx]⟩

/-! Part 7: basic lemmas on the file store, and the claims about the image store and lookups. -/

theorem fsRead_fsWrite (fs : Fs) (p : String) (b : List Nat) :
    fsRead (fsWrite fs p b) p = some b := by
  simp [fsRead, fsWrite, List.lookup]

theorem fsWrite_idem (fs : Fs) (p : String) (b : List Nat) :
    fsWrite (fsWrite fs p b) p b = fsWrite fs p b := by
  simp [fsWrite, List.filter_filter]

/-- C2.  For every byte sequence `b`, `put b` twice yields the same filename —
the lowercase hex SHA-256 digest of `b` with the `.jpg` suffix — both times,
the stored content at that name equals `b` after each call, and the second
write leaves the store exactly as the first left it (a no-op overwrite). -/
theorem putContentAddressedIdem (b : List Nat) (fs : Fs) :
    (put b fs).1 = sha256hex b ++ ".jpg" ∧
    (put b (put b fs).2).1 = (put b fs).1 ∧
    fsRead (put b fs).2 (pathJoin ImgDir (put b fs).1) = some b ∧
    fsRead (put b (put b fs).2).2 (pathJoin ImgDir (put b (put b fs).2).1) = some b ∧
    (put b (put b fs).2).2 = (put b fs).2 := by
  refine ⟨rfl, rfl, ?_, ?_, ?_⟩
  · exact fsRead_fsWrite ..
  · show fsRead (fsWrite (fsWrite fs _ b) _ b) _ = some b
    rw [fsWrite_idem]
    exact fsRead_fsWrite ..
  · show fsWrite (fsWrite fs _ b) _ b = fsWrite fs _ b
    exact fsWrite_idem ..

/-- C4 counterexample.  The traversal filename `../../etc/passwd.jpg` is NOT
rejected: `path.Join` cleans `images/../../etc/passwd.jpg` to
`../etc/passwd.jpg`, which still ends in `.jpg`, so the suffix check passes
and the handler proceeds to serve (here falling back to the default image). -/
theorem getImgTraversalNotRejected :
    pathJoin ImgDir "../../etc/passwd.jpg" = "../etc/passwd.jpg" ∧
    getImg "../../etc/passwd.jpg" [] ≠ GetImgResult.invalidName := by
  constructor
  · decide
  · decide

/-- C4 (amended).  `getImg` rejects a request exactly when the joined path
`path.Join(ImgDir, filename)` does not end in `.jpg` (so `x.png` is rejected,
but path-traversal names ending in `.jpg` are not), and for an accepted
filename whose file is absent it serves the fixed default image instead of
failing. -/
theorem getImgSuffixCheckAmended (name : String) (fs : Fs) :
    (getImg name fs = .invalidName ↔ hasSuffix (pathJoin ImgDir name) ".jpg" = false) ∧
    getImg "x.png" fs = .invalidName ∧
    (hasSuffix (pathJoin ImgDir name) ".jpg" = true →
      fsRead fs (pathJoin ImgDir name) = none →
      getImg name fs = .serveFile (pathJoin ImgDir "default.jpg")) := by
  refine ⟨?_, ?_, ?_⟩
  · unfold getImg
    cases h : hasSuffix (pathJoin ImgDir name) ".jpg" <;> simp [h]
    split <;> simp
  · unfold getImg
    have h : hasSuffix (pathJoin ImgDir "x.png") ".jpg" = false := by decide
    simp [h]
  · intro h habs
    unfold getImg
    simp [h, habs]

/-- C4 witness: evaluating the amended statement at `nonexistent.jpg` over the
empty store, which hits the default-image fallback. -/
theorem getImgSuffixCheckAmendedApplied :
    (getImg "nonexistent.jpg" [] = .invalidName ↔
      hasSuffix (pathJoin ImgDir "nonexistent.jpg") ".jpg" = false) ∧
    getImg "x.png" [] = .invalidName ∧
    getImg "nonexistent.jpg" [] = .serveFile (pathJoin ImgDir "default.jpg") :=
  ⟨(getImgSuffixCheckAmended "nonexistent.jpg" []).1,
   (getImgSuffixCheckAmended "nonexistent.jpg" []).2.1,
   (getImgSuffixCheckAmended "nonexistent.jpg" []).2.2 (by decide) (by decide)⟩

/-- C7.  `getItemById` fails with `NotFound` exactly when no item row carries
the requested id, and when the scan finds a row it returns the item built
from that row. -/
theorem getItemByIdSpec (id : Nat) (db : DB) :
    (getItemById id db = .error .notFound ↔ db.items.all (fun x => x.id != id) = true) ∧
    (∀ r, db.items.find? (fun x => x.id == id) = some r →
      getItemById id db = .ok ⟨0, r.name, toString r.categoryId, r.imageName⟩) := by
  constructor
  · unfold getItemById
    cases h : db.items.find? (fun x => x.id == id) with
    | none =>
      simp only [List.find?_eq_none] at h
      refine iff_of_true rfl ?_
      simp only [List.all_eq_true, bne_iff_ne]
      exact fun x hx => by simpa using h x hx
    | some r =>
      have hr := List.find?_some h
      have hmem := List.mem_of_find?_eq_some h
      refine iff_of_false (by simp) (fun hall => ?_)
      simp only [List.all_eq_true, bne_iff_ne] at hall
      exact hall r hmem (by simpa using hr)
  · intro r h
    unfold getItemById
    rw [h]

/-- C7 witness: one stored row with id 1; the lookup of id 1 succeeds and the
lookup of any other id would be `NotFound`. -/
theorem getItemByIdSpecApplied :
    (getItemById 1 ⟨[⟨3, "kitchen"⟩], [⟨1, "mug", 3, "m.jpg"⟩], 4, 2⟩ = .error .notFound ↔
      ([⟨1, "mug", 3, "m.jpg"⟩] : List ItemRow).all (fun x => x.id != 1) = true) ∧
    getItemById 1 ⟨[⟨3, "kitchen"⟩], [⟨1, "mug", 3, "m.jpg"⟩], 4, 2⟩ =
      .ok ⟨0, "mug", "3", "m.jpg"⟩ :=
  ⟨(getItemByIdSpec 1 ⟨[⟨3, "kitchen"⟩], [⟨1, "mug", 3, "m.jpg"⟩], 4, 2⟩).1,
   (getItemByIdSpec 1 ⟨[⟨3, "kitchen"⟩], [⟨1, "mug", 3, "m.jpg"⟩], 4, 2⟩).2
     ⟨1, "mug", 3, "m.jpg"⟩ (by decide)⟩

/-- C10.  The single-item lookup selects only `name`, `category_id`,
`image_name`: the response's `category` field is the decimal string of the
numeric `category_id` (never the joined category name) and its `id` field is
always the zero value. -/
theorem getItemByIdResponseShape (id : Nat) (db : DB) (r : ItemRow)
    (h : db.items.find? (fun x => x.id == id) = some r) :
    getItemById id db = .ok ⟨0, r.name, toString r.categoryId, r.imageName⟩ := by
  unfold getItemById
  rw [h]

/-- C10 witness: the stored row has id 5 and category 3 named `kitchen`, yet
the response carries id 0 and category `"3"`. -/
theorem getItemByIdResponseShapeApplied :
    getItemById 5 ⟨[⟨3, "kitchen"⟩], [⟨5, "mug", 3, "m.jpg"⟩], 4, 6⟩ =
      .ok ⟨0, "mug", "3", "m.jpg"⟩ :=
  getItemByIdResponseShape 5 ⟨[⟨3, "kitchen"⟩], [⟨5, "mug", 3, "m.jpg"⟩], 4, 6⟩
    ⟨5, "mug", 3, "m.jpg"⟩ (by decide)

/-! Part 8: structure of a fault-free `addItem` run, and the add-item claims. -/

theorem resolveOrCreate_items (N : String) (db : DB) :
    (resolveOrCreate N db).2.items = db.items := by
  unfold resolveOrCreate
  cases h : db.categories.find? (fun c => c.name == N) <;> rfl

theorem resolveOrCreate_nextItemId (N : String) (db : DB) :
    (resolveOrCreate N db).2.nextItemId = db.nextItemId := by
  unfold resolveOrCreate
  cases h : db.categories.find? (fun c => c.name == N) <;> rfl

theorem addItem_noFaults_eq (nm cat : Option String) (b : List Nat) (fs : Fs) (db : DB) :
    (addItem ⟨nm, cat, some b⟩ noFaults fs db).outcome = .ok ∧
    (addItem ⟨nm, cat, some b⟩ noFaults fs db).fs =
      fsWrite fs (pathJoin ImgDir (sha256hex b ++ ".jpg")) b ∧
    (addItem ⟨nm, cat, some b⟩ noFaults fs db).db =
      { categories := (resolveOrCreate (cat.getD "") db).2.categories,
        items := db.items ++
          [⟨db.nextItemId, nm.getD "", (resolveOrCreate (cat.getD "") db).1,
            sha256hex b ++ ".jpg"⟩],
        nextCategoryId := (resolveOrCreate (cat.getD "") db).2.nextCategoryId,
        nextItemId := db.nextItemId + 1 } := by
  cases h : db.categories.find? (fun c => c.name == cat.getD "") <;>
    simp [addItem, addItem.addItemInsert, resolveOrCreate, noFaults, h]

/-- C1.  Whenever the image part is present and the add-item request does not
end in a committed `ok` — any failure (or the nil-statement panic) at or after
the opening of the transaction — the database is exactly as before the
request, while the content-addressed image file written beforehand is still
present with the uploaded bytes (it is never deleted). -/
theorem addItemTransactionAtomic (req : AddReq) (f : Faults) (fs : Fs) (db : DB) (b : List Nat)
    (himg : req.image = some b)
    (hfail : (addItem req f fs db).outcome ≠ .ok) :
    (addItem req f fs db).db = db ∧
    (addItem req f fs db).fs = fsWrite fs (pathJoin ImgDir (sha256hex b ++ ".jpg")) b ∧
    fsRead (addItem req f fs db).fs (pathJoin ImgDir (sha256hex b ++ ".jpg")) = some b := by
  obtain ⟨nm, cat, img⟩ := req
  cases img with
  | none => cases himg
  | some b' =>
    cases himg
    rcases f with ⟨fb, fq, fi, fp, fe, fc⟩
    cases fb <;> cases fq <;> cases fi <;> cases fp <;> cases fe <;> cases fc <;>
      cases h : db.categories.find? (fun c => c.name == cat.getD "") <;>
      simp [addItem, addItem.addItemInsert, h, fsRead_fsWrite] at hfail ⊢

/-- C1 witness: a commit-stage fault on a concrete request leaves the database
unchanged while the image file persists. -/
theorem addItemTransactionAtomicApplied :
    (addItem ⟨some "mug", some "kitchen", some [7]⟩ ⟨false, false, false, false, false, true⟩
      [] ⟨[], [], 1, 1⟩).db = ⟨[], [], 1, 1⟩ ∧
    (addItem ⟨some "mug", some "kitchen", some [7]⟩ ⟨false, false, false, false, false, true⟩
      [] ⟨[], [], 1, 1⟩).fs =
      fsWrite [] (pathJoin ImgDir (sha256hex [7] ++ ".jpg")) [7] ∧
    fsRead (addItem ⟨some "mug", some "kitchen", some [7]⟩ ⟨false, false, false, false, false, true⟩
      [] ⟨[], [], 1, 1⟩).fs (pathJoin ImgDir (sha256hex [7] ++ ".jpg")) = some [7] :=
  addItemTransactionAtomic ⟨some "mug", some "kitchen", some [7]⟩
    ⟨false, false, false, false, false, true⟩ [] ⟨[], [], 1, 1⟩ [7] rfl (by decide)

/-- C3 counterexample.  A request with NO `name` field (and none for `name`
means `FormValue` silently yields `""`) is not rejected: the handler commits an
item row with the empty name, so a malformed request does produce side
effects instead of failing with `BadInput`. -/
theorem addItemMissingNameAccepted :
    (addItem ⟨none, some "kitchen", some [7]⟩ noFaults [] ⟨[], [], 1, 1⟩).outcome = Outcome.ok ∧
    (addItem ⟨none, some "kitchen", some [7]⟩ noFaults [] ⟨[], [], 1, 1⟩).db.items =
      [⟨1, "", 1, sha256hex [7] ++ ".jpg"⟩] := by
  constructor
  · decide
  · decide

/-- C3 (amended).  Only a missing attached image fails the request, and it
does so before any side effect (file system and database are untouched);
missing `name` or `category` fields are NOT rejected — they default to the
empty string and the request proceeds to insert an item row. -/
theorem addItemValidationAmended (nm cat : Option String) (b : List Nat) (f : Faults)
    (fs : Fs) (db : DB) :
    addItem ⟨nm, cat, none⟩ f fs db = ⟨fs, db, .errImageMissing, [.formImage]⟩ ∧
    (addItem ⟨nm, cat, some b⟩ noFaults fs db).outcome = .ok ∧
    (addItem ⟨nm, cat, some b⟩ noFaults fs db).db.items =
      db.items ++
        [⟨db.nextItemId, nm.getD "", (resolveOrCreate (cat.getD "") db).1,
          sha256hex b ++ ".jpg"⟩] := by
  refine ⟨rfl, (addItem_noFaults_eq nm cat b fs db).1, ?_⟩
  rw [(addItem_noFaults_eq nm cat b fs db).2.2]

theorem resolveOrCreate_find_self (N : String) (db : DB) :
    (resolveOrCreate N db).2.categories.find? (fun c => c.name == N) =
      some ⟨(resolveOrCreate N db).1, N⟩ := by
  unfold resolveOrCreate
  cases h : db.categories.find? (fun c => c.name == N) with
  | some c =>
    have hc : c.name = N := by simpa using List.find?_some h
    obtain ⟨cid, cname⟩ := c
    subst hc
    exact h
  | none => simp [List.find?_append, h]

theorem resolveOrCreate_idem (N : String) (db : DB) :
    resolveOrCreate N (resolveOrCreate N db).2 = resolveOrCreate N db := by
  have hf := resolveOrCreate_find_self N db
  conv_lhs => rw [resolveOrCreate]
  rw [hf]

/-- C5.  Repeated sequential `resolveOrCreate N` calls return the same
category id without touching the table again, and a second successful
add-item request with an already-seen category name creates no new category
row while appending one fresh item row whose id differs from every item row
already present. -/
theorem resolveOrCreateStable (N : String) (db : DB) (nm1 nm2 : Option String)
    (b1 b2 : List Nat) (fs : Fs)
    (hwf : ∀ it ∈ db.items, it.id < db.nextItemId) :
    (resolveOrCreate N (resolveOrCreate N db).2).1 = (resolveOrCreate N db).1 ∧
    (resolveOrCreate N (resolveOrCreate N db).2).2 = (resolveOrCreate N db).2 ∧
    (addItem ⟨nm2, some N, some b2⟩ noFaults
        (addItem ⟨nm1, some N, some b1⟩ noFaults fs db).fs
        (addItem ⟨nm1, some N, some b1⟩ noFaults fs db).db).db.categories =
      (addItem ⟨nm1, some N, some b1⟩ noFaults fs db).db.categories ∧
    (addItem ⟨nm2, some N, some b2⟩ noFaults
        (addItem ⟨nm1, some N, some b1⟩ noFaults fs db).fs
        (addItem ⟨nm1, some N, some b1⟩ noFaults fs db).db).db.items =
      (addItem ⟨nm1, some N, some b1⟩ noFaults fs db).db.items ++
        [⟨db.nextItemId + 1, nm2.getD "", (resolveOrCreate N db).1,
          sha256hex b2 ++ ".jpg"⟩] ∧
    (addItem ⟨nm1, some N, some b1⟩ noFaults fs db).db.items.all
      (fun it => it.id != db.nextItemId + 1) = true := by
  have e1 := (addItem_noFaults_eq nm1 (some N) b1 fs db).2.2
  have e2 := (addItem_noFaults_eq nm2 (some N) b2
    (addItem ⟨nm1, some N, some b1⟩ noFaults fs db).fs
    (addItem ⟨nm1, some N, some b1⟩ noFaults fs db).db).2.2
  simp only [Option.getD_some] at e1 e2
  have hfind : (addItem ⟨nm1, some N, some b1⟩ noFaults fs db).db.categories.find?
      (fun c => c.name == N) = some ⟨(resolveOrCreate N db).1, N⟩ := by
    rw [e1]
    exact resolveOrCreate_find_self N db
  have hrc2 : resolveOrCreate N (addItem ⟨nm1, some N, some b1⟩ noFaults fs db).db =
      ((resolveOrCreate N db).1, (addItem ⟨nm1, some N, some b1⟩ noFaults fs db).db) := by
    conv_lhs => rw [resolveOrCreate]
    rw [hfind]
  refine ⟨congrArg Prod.fst (resolveOrCreate_idem N db),
          congrArg Prod.snd (resolveOrCreate_idem N db), ?_, ?_, ?_⟩
  · rw [e2, hrc2]
  · rw [e2, hrc2]
    rw [e1]
  · rw [e1]
    simp only [List.all_append, List.all_eq_true, bne_iff_ne, Bool.and_eq_true]
    constructor
    · intro it hit
      have := hwf it hit
      omega
    · simp

/-- C5 witness: two adds with category `kitchen` into the empty database. -/
theorem resolveOrCreateStableApplied :
    (resolveOrCreate "kitchen" (resolveOrCreate "kitchen" ⟨[], [], 1, 1⟩).2).1 =
      (resolveOrCreate "kitchen" (⟨[], [], 1, 1⟩ : DB)).1 ∧
    (resolveOrCreate "kitchen" (resolveOrCreate "kitchen" ⟨[], [], 1, 1⟩).2).2 =
      (resolveOrCreate "kitchen" (⟨[], [], 1, 1⟩ : DB)).2 ∧
    (addItem ⟨some "cup", some "kitchen", some [7]⟩ noFaults
        (addItem ⟨some "mug", some "kitchen", some [7]⟩ noFaults [] ⟨[], [], 1, 1⟩).fs
        (addItem ⟨some "mug", some "kitchen", some [7]⟩ noFaults [] ⟨[], [], 1, 1⟩).db).db.categories =
      (addItem ⟨some "mug", some "kitchen", some [7]⟩ noFaults [] ⟨[], [], 1, 1⟩).db.categories ∧
    (addItem ⟨some "cup", some "kitchen", some [7]⟩ noFaults
        (addItem ⟨some "mug", some "kitchen", some [7]⟩ noFaults [] ⟨[], [], 1, 1⟩).fs
        (addItem ⟨some "mug", some "kitchen", some [7]⟩ noFaults [] ⟨[], [], 1, 1⟩).db).db.items =
      (addItem ⟨some "mug", some "kitchen", some [7]⟩ noFaults [] ⟨[], [], 1, 1⟩).db.items ++
        [⟨(1 : Nat) + 1, (some "cup").getD "",
          (resolveOrCreate "kitchen" (⟨[], [], 1, 1⟩ : DB)).1, sha256hex [7] ++ ".jpg"⟩] ∧
    (addItem ⟨some "mug", some "kitchen", some [7]⟩ noFaults [] ⟨[], [], 1, 1⟩).db.items.all
      (fun it => it.id != 1 + 1) = true :=
  resolveOrCreateStable "kitchen" ⟨[], [], 1, 1⟩ (some "mug") (some "cup") [7] [7] []
    (by decide)

/-- C9 (code bug).  With a failing `tx.Prepare`, the handler reports the error
but, lacking a `return`, still reaches `statement.Exec` on the nil prepared
statement: the trace shows the exec step after the failed prepare, and the
request dies by panic instead of an orderly fail-fast return. -/
theorem addItemPrepareFailureRunsExec :
    (addItem ⟨some "mug", some "kitchen", some [7]⟩ ⟨false, false, false, true, false, false⟩
      [] ⟨[], [], 1, 1⟩).outcome = Outcome.panicked ∧
    (addItem ⟨some "mug", some "kitchen", some [7]⟩ ⟨false, false, false, true, false, false⟩
      [] ⟨[], [], 1, 1⟩).trace =
      [Step.formImage, Step.writeImage, Step.beginTx, Step.queryCategory, Step.insertCategory,
       Step.prepareStmt, Step.execItem, Step.rollbackTx] := by
  constructor
  · decide
  · decide

/-! Part 9: `LIKE` pattern matching versus substring containment. -/

theorem likeMatch_single_percent (s : List Char) : likeMatch ['%'] s = true := by
  simp only [likeMatch, if_pos rfl]
  refine List.any_eq_true.mpr ⟨[], ?_, rfl⟩
  exact (List.mem_tails [] s).mpr List.nil_suffix

theorem likeMatch_percent_iff (ps s : List Char) :
    likeMatch ('%' :: ps) s = true ↔ ∃ t, t <:+ s ∧ likeMatch ps t = true := by
  simp only [likeMatch, if_pos rfl, if_true, eq_self_iff_true, List.any_eq_true, List.mem_tails]

theorem likeMatch_append_percent (p : List Char) (hp : ∀ c ∈ p, c ≠ '%' ∧ c ≠ '_')
    (s : List Char) : likeMatch (p ++ ['%']) s = true ↔ lowerStr p <+: lowerStr s := by
  induction p generalizing s with
  | nil =>
    refine iff_of_true (likeMatch_single_percent s) ?_
    exact List.nil_prefix
  | cons a p ih =>
    have ha := hp a (by simp)
    have hp' : ∀ c ∈ p, c ≠ '%' ∧ c ≠ '_' := fun c hc => hp c (by simp [hc])
    cases s with
    | nil =>
      simp only [List.cons_append, likeMatch, if_neg ha.1]
      simp [lowerStr]
    | cons c s' =>
      simp only [List.cons_append, likeMatch, if_neg ha.1, if_neg ha.2]
      rw [Bool.and_eq_true, beq_iff_eq]
      unfold lowerStr
      simp only [List.map_cons, List.cons_prefix_cons, List.append_eq]
      rw [ih hp' s']
      rfl

theorem containsSub_iff (l₁ l₂ : List Char) : containsSub l₁ l₂ = true ↔ l₁ <:+: l₂ := by
  simp only [containsSub, List.any_eq_true]
  rw [List.infix_iff_prefix_suffix]
  constructor
  · rintro ⟨t, ht, hpre⟩
    exact ⟨t, List.isPrefixOf_iff_prefix.mp hpre, (List.mem_tails t l₂).mp ht⟩
  · rintro ⟨t, hpre, ht⟩
    exact ⟨t, (List.mem_tails t l₂).mpr ht, List.isPrefixOf_iff_prefix.mpr hpre⟩

theorem likeMatch_pattern_iff (kw : List Char) (hkw : ∀ c ∈ kw, c ≠ '%' ∧ c ≠ '_')
    (s : List Char) :
    likeMatch ('%' :: (kw ++ ['%'])) s = true ↔ containsSub (lowerStr kw) (lowerStr s) = true := by
  rw [likeMatch_percent_iff, containsSub_iff, List.infix_iff_prefix_suffix]
  constructor
  · rintro ⟨t, hts, hm⟩
    rw [likeMatch_append_percent kw hkw t] at hm
    exact ⟨lowerStr t, hm, hts.map lowerAscii⟩
  · rintro ⟨t', hpre, hsuf⟩
    obtain ⟨u, hu⟩ := hsuf
    refine ⟨s.drop u.length, List.drop_suffix _ _, ?_⟩
    rw [likeMatch_append_percent kw hkw]
    have hdrop : lowerStr (s.drop u.length) = t' := by
      unfold lowerStr
      rw [List.map_drop]
      show (lowerStr s).drop u.length = t'
      rw [← hu]
      exact List.drop_left u t'
    rw [hdrop]
    exact hpre

/-- C6.  For a keyword free of `LIKE` metacharacters, `searchItems` returns
exactly the (name, category_id) pairs of those items whose name contains the
keyword as an ASCII-case-insensitive substring (the engine's reference
behavior), in stored order; the empty keyword matches every item, so
`search("")` returns all items. -/
theorem searchItemsSpec (kw : String) (db : DB)
    (hkw : ∀ c ∈ kw.data, c ≠ '%' ∧ c ≠ '_') :
    searchItems kw db = searchByNameSubstringSpec kw db ∧
    searchItems "" db = db.items.map (fun it => (it.name, toString it.categoryId)) := by
  constructor
  · unfold searchItems searchByNameSubstringSpec
    congr 1
    refine List.filter_congr (fun it _ => ?_)
    rw [Bool.eq_iff_iff]
    exact likeMatch_pattern_iff kw.data hkw it.name.data
  · unfold searchItems
    have hall : ∀ it ∈ db.items,
        likeMatch ('%' :: (("" : String).data ++ ['%'])) it.name.data = true := by
      intro it _
      rw [likeMatch_percent_iff]
      exact ⟨[], List.nil_suffix, likeMatch_single_percent []⟩
    rw [List.filter_eq_self.mpr hall]

/-- C6 witness: `search("mu")` over a two-item table keeps exactly the
matching `mug` row, and `search("")` returns both items. -/
theorem searchItemsSpecApplied :
    searchItems "mu" ⟨[⟨1, "kitchen"⟩], [⟨1, "mug", 1, "m.jpg"⟩, ⟨2, "Pot", 1, "p.jpg"⟩], 2, 3⟩ =
      searchByNameSubstringSpec "mu"
        ⟨[⟨1, "kitchen"⟩], [⟨1, "mug", 1, "m.jpg"⟩, ⟨2, "Pot", 1, "p.jpg"⟩], 2, 3⟩ ∧
    searchItems "" ⟨[⟨1, "kitchen"⟩], [⟨1, "mug", 1, "m.jpg"⟩, ⟨2, "Pot", 1, "p.jpg"⟩], 2, 3⟩ =
      (⟨[⟨1, "kitchen"⟩], [⟨1, "mug", 1, "m.jpg"⟩, ⟨2, "Pot", 1, "p.jpg"⟩], 2, 3⟩ : DB).items.map
        (fun it => (it.name, toString it.categoryId)) :=
  searchItemsSpec "mu" ⟨[⟨1, "kitchen"⟩], [⟨1, "mug", 1, "m.jpg"⟩, ⟨2, "Pot", 1, "p.jpg"⟩], 2, 3⟩
    (by decide)

/-! Part 10: the list-all join. -/

/-- The category name the join associates with a category id. -/
def categoryNameOf (db : DB) (cid : Nat) : String :=
  ((db.categories.find? (fun c => c.id == cid)).getD ⟨0, ""⟩).name

theorem filter_unique_id (cid : Nat) (l : List CategoryRow)
    (hu : (l.map (fun c => c.id)).Nodup) (c : CategoryRow)
    (hc : l.find? (fun x => x.id == cid) = some c) :
    l.filter (fun x => x.id == cid) = [c] := by
  induction l with
  | nil => cases hc
  | cons a l ih =>
    rw [List.map_cons, List.nodup_cons] at hu
    by_cases ha : (a.id == cid) = true
    · rw [@List.find?_cons_of_pos _ (fun x => x.id == cid) a l ha] at hc
      injection hc with hc
      subst hc
      rw [@List.filter_cons_of_pos _ (fun x => x.id == cid) _ l ha]
      have hnone : l.filter (fun x => x.id == cid) = [] := by
        refine List.filter_eq_nil_iff.mpr (fun x hx hpx => ?_)
        have hxid : x.id = cid := by simpa using hpx
        have haid : a.id = cid := by simpa using ha
        exact hu.1 (by rw [List.mem_map]; exact ⟨x, hx, by rw [hxid, haid]⟩)
      rw [hnone]
    · rw [@List.find?_cons_of_neg _ (fun x => x.id == cid) a l ha] at hc
      rw [@List.filter_cons_of_neg _ (fun x => x.id == cid) a l ha]
      exact ih hu.2 hc

/-- C8.  When category ids are unique and every item's category exists (the
referential integrity the workflow maintains), `GET /items` returns every
item row exactly once, each joined with its category's name, in stored
(primary-key / insertion) order and without pagination. -/
theorem getItemsJoinSpec (db : DB)
    (hu : (db.categories.map (fun c => c.id)).Nodup)
    (hri : ∀ it ∈ db.items, ∃ c ∈ db.categories, c.id = it.categoryId) :
    getItems db = db.items.map (fun it =>
      ⟨it.id, it.name, categoryNameOf db it.categoryId, it.imageName⟩) := by
  unfold getItems
  have main : ∀ (l : List ItemRow), (∀ it ∈ l, ∃ c ∈ db.categories, c.id = it.categoryId) →
      l.flatMap (fun it => (db.categories.filter (fun c => c.id == it.categoryId)).map
        (fun c => (⟨it.id, it.name, c.name, it.imageName⟩ : Item))) =
      l.map (fun it => ⟨it.id, it.name, categoryNameOf db it.categoryId, it.imageName⟩) := by
    intro l hl
    induction l with
    | nil => rfl
    | cons a l ih =>
      rw [List.flatMap_cons, List.map_cons]
      obtain ⟨c, hcmem, hcid⟩ := hl a (by simp)
      have hsome : (db.categories.find? (fun x => x.id == a.categoryId)).isSome :=
        List.find?_isSome.mpr ⟨c, hcmem, by simp [hcid]⟩
      obtain ⟨c', hc'⟩ := Option.isSome_iff_exists.mp hsome
      rw [filter_unique_id a.categoryId db.categories hu c' hc']
      rw [ih (fun it hit => hl it (by simp [hit]))]
      simp [categoryNameOf, hc']
  exact main db.items hri

/-- C8 witness: two items in two categories; the join lists both in insertion
order with their category names. -/
theorem getItemsJoinSpecApplied :
    getItems ⟨[⟨1, "kitchen"⟩, ⟨2, "bath"⟩],
      [⟨1, "mug", 1, "m.jpg"⟩, ⟨2, "soap", 2, "s.jpg"⟩], 3, 3⟩ =
      (⟨[⟨1, "kitchen"⟩, ⟨2, "bath"⟩],
        [⟨1, "mug", 1, "m.jpg"⟩, ⟨2, "soap", 2, "s.jpg"⟩], 3, 3⟩ : DB).items.map
        (fun it =>
          ⟨it.id, it.name,
            categoryNameOf ⟨[⟨1, "kitchen"⟩, ⟨2, "bath"⟩],
              [⟨1, "mug", 1, "m.jpg"⟩, ⟨2, "soap", 2, "s.jpg"⟩], 3, 3⟩ it.categoryId,
            it.imageName⟩) :=
  getItemsJoinSpec ⟨[⟨1, "kitchen"⟩, ⟨2, "bath"⟩],
    [⟨1, "mug", 1, "m.jpg"⟩, ⟨2, "soap", 2, "s.jpg"⟩], 3, 3⟩ (by decide) (by decide)
